import Mathlib

/-!
Verification of the titanium fastener pricing-intelligence tool.

The development shallowly embeds the two Python modules:
* the analytics transform of the dashboard (filter by fastener type, sort by
  product and date, per-row daily depletion rate via a grouped positional
  diff, latest-snapshot selection, the price-gap metric, and the steel-family
  opportunity summary), and
* the synthetic snapshot generator (date advancement, per-product simulation
  with the random draws passed in explicitly, the products/snapshots append
  step with contiguous snapshot-id assignment).

Machine floats of the source are modelled by exact rationals; the random
number generator is modelled by quantifying over the values it may return.
-/

set_option maxHeartbeats 1000000
set_option maxRecDepth 100000

namespace TitaniumScraper

/-! ### Data model of the merged dashboard table

A `Row` is one row of the merged product-by-snapshot table that the dashboard
works on after its inner join.  Only the columns the analytics touch are kept;
the opaque string keys are modelled by numbers, the material name by its
character list (the code matches on it as a string). -/

structure Row where
  product_id : Nat
  date_scraped : Int
  price_per_unit : ℚ
  inventory_level : ℚ
  material : List Char
  fastener_type : Nat
deriving DecidableEq

/-- The sort key order of sort_values on the column pair
product_id, date_scraped. -/
def rowLE (a b : Row) : Prop :=
  a.product_id < b.product_id ∨
    (a.product_id = b.product_id ∧ a.date_scraped ≤ b.date_scraped)

instance : DecidableRel rowLE := fun a b => by
  unfold rowLE; exact inferInstance

instance : IsTotal Row rowLE := by
  constructor
  intro a b
  unfold rowLE
  omega

instance : IsTrans Row rowLE := by
  constructor
  intro a b c hab hbc
  unfold rowLE at hab hbc ⊢
  omega

/-- Date order, used to state that each product group is date ascending. -/
def dateLE (a b : Row) : Prop := a.date_scraped ≤ b.date_scraped

/-- The sidebar filter: keep the rows of the selected fastener type. -/
def filterType (rows : List Row) (ft : Nat) : List Row :=
  rows.filter (fun r => decide (r.fastener_type = ft))

/-- sort_values on the column pair product_id, date_scraped. -/
def sortRows (rows : List Row) : List Row :=
  List.insertionSort rowLE rows

/-- The filtered-and-sorted table the dashboard computes before deriving the
depletion column. -/
def sortedFiltered (rows : List Row) (ft : Nat) : List Row :=
  sortRows (filterType rows ft)

/-- The row a grouped positional diff pairs row i with: the last earlier row
of the table carrying the same product_id (none for a group head). -/
def prevSameProduct (s : List Row) (i : Nat) : Option Row :=
  s[i]?.bind (fun r => ((s.take i).filter
      (fun q => decide (q.product_id = r.product_id))).getLast?)

/-- Daily depletion rate of row i: previous inventory minus current inventory
when that is positive, else 0 (covers restocks, flat stock and group heads). -/
def depletionAt (s : List Row) (i : Nat) : ℚ :=
  ((prevSameProduct s i).bind (fun p => s[i]?.map (fun r =>
      if 0 < p.inventory_level - r.inventory_level then
        p.inventory_level - r.inventory_level
      else 0))).getD 0

/-- The whole derived daily_depletion_rate column. -/
def depletionColumn (s : List Row) : List ℚ :=
  (List.range s.length).map (fun i => depletionAt s i)

/-- The dashboard table after the depletion column is attached: each row of th
filtered, sorted table paired with its daily_depletion_rate. -/
def pipeline (rows : List Row) (ft : Nat) : List (Row × ℚ) :=
  (sortedFiltered rows ft).zip (depletionColumn (sortedFiltered rows ft))

/-! ### The claimed form of the depletion column

Stated from the specification text: walk the sorted table, give the first row
0, and give every later row its predecessor-minus-current inventory change if
the predecessor belongs to the same product and the change is positive,
otherwise 0. -/

/-- One step of the claimed computation. -/
def depStep (p c : Row) : ℚ :=
  if p.product_id = c.product_id ∧ 0 < p.inventory_level - c.inventory_level
  then p.inventory_level - c.inventory_level
  else 0

/-- The claimed column for the tail of the table, given the previous row. -/
def claimGo : Row → List Row → List ℚ
  | _, [] => []
  | p, c :: cs => depStep p c :: claimGo c cs

/-- The claimed depletion column over the sorted table. -/
def claimedDepletions : List Row → List ℚ
  | [] => []
  | r :: rs => 0 :: claimGo r rs

/-! ### Lemmas about the depletion column -/

theorem claimGo_length (p : Row) (l : List Row) :
    (claimGo p l).length = l.length := by
  induction l generalizing p with
  | nil => rfl
  | cons c cs ih => simp [claimGo, ih]

theorem claimedDepletions_length (l : List Row) :
    (claimedDepletions l).length = l.length := by
  cases l with
  | nil => rfl
  | cons r rs => simp [claimedDepletions, claimGo_length]

theorem depletionColumn_length (s : List Row) :
    (depletionColumn s).length = s.length := by
  simp [depletionColumn]

theorem claimGo_getElem (p : Row) (l : List Row) (i : Nat)
    (h : i < l.length) (h1 : i - 1 < l.length)
    (hg : i < (claimGo p l).length) :
    (claimGo p l)[i] =
      if i = 0 then depStep p l[i] else depStep l[i - 1] l[i] := by
  induction l generalizing p i with
  | nil => simp at h
  | cons c cs ih =>
    cases i with
    | zero => simp [claimGo]
    | succ j =>
      have hj : j < cs.length := by simpa using h
      have hg2 : j < (claimGo c cs).length := by
        rw [claimGo_length]; exact hj
      cases j with
      | zero =>
        have hih := ih c 0 hj (by omega) hg2
        simpa [claimGo] using hih
      | succ k =>
        have hih := ih c (k + 1) hj (by omega) hg2
        simpa [claimGo] using hih

theorem claimedDepletions_getElem (s : List Row) (i : Nat)
    (h : i < s.length) (h1 : i - 1 < s.length)
    (hg : i < (claimedDepletions s).length) :
    (claimedDepletions s)[i] =
      if i = 0 then 0 else depStep s[i - 1] s[i] := by
  cases s with
  | nil => simp at h
  | cons r rs =>
    cases i with
    | zero => simp [claimedDepletions]
    | succ j =>
      have hj : j < rs.length := by simpa using h
      have hg2 : j < (claimGo r rs).length := by
        rw [claimGo_length]; exact hj
      have hgo := claimGo_getElem r rs j hj (by omega) hg2
      cases j with
      | zero => simpa [claimedDepletions] using hgo
      | succ k => simpa [claimedDepletions] using hgo

theorem rowLE_pid {a b : Row} (hab : rowLE a b) :
    a.product_id ≤ b.product_id := by
  unfold rowLE at hab; omega

theorem sorted_getElem_rowLE {s : List Row} (hs : List.Sorted rowLE s)
    {i j : Nat} (hi : i < s.length) (hj : j < s.length) (hij : i < j) :
    rowLE s[i] s[j] := by
  have hp := List.pairwise_iff_get.mp hs ⟨i, hi⟩ ⟨j, hj⟩ hij
  simpa [List.get_eq_getElem] using hp

theorem prevSameProduct_zero (s : List Row) : prevSameProduct s 0 = none := by
  unfold prevSameProduct
  cases h : s[0]? with
  | none => rfl
  | some r => simp

theorem prevSameProduct_succ_eq (s : List Row) (j : Nat)
    (hj : j < s.length) (hj1 : j + 1 < s.length)
    (heq : s[j].product_id = s[j + 1].product_id) :
    prevSameProduct s (j + 1) = some s[j] := by
  unfold prevSameProduct
  rw [List.getElem?_eq_getElem hj1]
  have htake : s.take (j + 1) = s.take j ++ [s[j]] := by
    rw [List.take_succ, List.getElem?_eq_getElem hj]
    rfl
  simp only [Option.some_bind, htake, List.filter_append]
  have hfs : List.filter
      (fun q => decide (q.product_id = s[j + 1].product_id)) [s[j]] = [s[j]] := by
    simp [heq]
  rw [hfs, List.getLast?_concat]

theorem prevSameProduct_succ_ne (s : List Row) (hs : List.Sorted rowLE s)
    (j : Nat) (hj : j < s.length) (hj1 : j + 1 < s.length)
    (hne : s[j].product_id ≠ s[j + 1].product_id) :
    prevSameProduct s (j + 1) = none := by
  unfold prevSameProduct
  rw [List.getElem?_eq_getElem hj1]
  have hnil : (s.take (j + 1)).filter
      (fun q => decide (q.product_id = s[j + 1].product_id)) = [] := by
    rw [List.filter_eq_nil_iff]
    intro q hq
    simp only [decide_eq_true_eq]
    intro hqe
    obtain ⟨k, hk⟩ := List.mem_iff_getElem?.mp hq
    have hkj : k < j + 1 := by
      by_contra hge
      rw [List.getElem?_eq_none] at hk
      · exact Option.noConfusion hk
      · have hlen : (s.take (j + 1)).length ≤ j + 1 := by
          simp [List.length_take]
        omega
    rw [List.getElem?_take_of_lt hkj] at hk
    have hklen : k < s.length := by omega
    rw [List.getElem?_eq_getElem hklen] at hk
    have hkq : s[k] = q := by simpa using hk
    have hjj : s[j].product_id ≤ s[j + 1].product_id :=
      rowLE_pid (sorted_getElem_rowLE hs hj hj1 (by omega))
    rcases Nat.lt_or_ge k j with hkj2 | hkj2
    · have hkle : s[k].product_id ≤ s[j].product_id :=
        rowLE_pid (sorted_getElem_rowLE hs hklen hj hkj2)
      rw [hkq, hqe] at hkle
      omega
    · have hkeq : k = j := by omega
      subst hkeq
      rw [hkq, hqe] at hne
      exact hne rfl
  simp only [Option.some_bind, hnil, List.getLast?_nil]

theorem depletionAt_eq_claim (s : List Row) (hs : List.Sorted rowLE s)
    (i : Nat) (h : i < s.length) (h1 : i - 1 < s.length) :
    depletionAt s i =
      if i = 0 then 0 else depStep s[i - 1] s[i] := by
  cases i with
  | zero => simp [depletionAt, prevSameProduct_zero]
  | succ j =>
    have hj : j < s.length := by omega
    rw [if_neg (Nat.succ_ne_zero j)]
    simp only [Nat.add_sub_cancel]
    by_cases hpid : s[j].product_id = s[j + 1].product_id
    · unfold depletionAt
      rw [prevSameProduct_succ_eq s j hj h hpid, List.getElem?_eq_getElem h]
      simp [depStep, hpid]
    · unfold depletionAt
      rw [prevSameProduct_succ_ne s hs j hj h hpid]
      simp [depStep, hpid]

theorem depletionColumn_eq_claimed (s : List Row) (hs : List.Sorted rowLE s) :
    depletionColumn s = claimedDepletions s := by
  apply List.ext_get
  · rw [depletionColumn_length, claimedDepletions_length]
  · intro n h1 h2
    simp only [List.get_eq_getElem]
    have hn : n < s.length := by rw [depletionColumn_length] at h1; exact h1
    have hdc : (depletionColumn s)[n] = depletionAt s n := by
      simp [depletionColumn]
    rw [hdc, claimedDepletions_getElem s n hn (by omega) h2,
      depletionAt_eq_claim s hs n hn (by omega)]

/-- Groups of a table sorted on the pair key are internally date ascending. -/
theorem sorted_group_dates (s : List Row) (hs : List.Sorted rowLE s) (pid : Nat) :
    List.Sorted dateLE (s.filter (fun r => decide (r.product_id = pid))) := by
  have h1 : List.Pairwise rowLE
      (s.filter (fun r => decide (r.product_id = pid))) :=
    List.Pairwise.sublist (List.filter_sublist s) hs
  refine List.Pairwise.imp_of_mem ?_ h1
  intro a b ha hb hab
  have hpa : a.product_id = pid := by
    simpa using (List.mem_filter.mp ha).2
  have hpb : b.product_id = pid := by
    simpa using (List.mem_filter.mp hb).2
  unfold rowLE at hab
  unfold dateLE
  omega

/-- C1: the derived daily_depletion_rate column is computed by grouping rows
by product_id, sorting each group by date_scraped ascending (the global sort
on the product/date pair makes each group a contiguous date-ascending run),
and taking previous_inventory minus current_inventory; a positive value is
kept, and a negative value (restock), a zero value, or an undefined value
(the first row of a product's series) yields exactly 0. -/
theorem c1_depletion_rate (rows : List Row) (ft : Nat) :
    List.Sorted rowLE (sortedFiltered rows ft)
    ∧ List.Perm (sortedFiltered rows ft) (filterType rows ft)
    ∧ (pipeline rows ft).map Prod.fst = sortedFiltered rows ft
    ∧ (pipeline rows ft).map Prod.snd = claimedDepletions (sortedFiltered rows ft)
    ∧ ∀ pid, List.Sorted dateLE
        ((sortedFiltered rows ft).filter (fun r => decide (r.product_id = pid))) := by
  have hs : List.Sorted rowLE (sortedFiltered rows ft) :=
    List.sorted_insertionSort rowLE (filterType rows ft)
  refine ⟨hs, List.perm_insertionSort rowLE (filterType rows ft), ?_, ?_, ?_⟩
  · exact List.map_fst_zip _ _ (by rw [depletionColumn_length])
  · rw [pipeline, List.map_snd_zip _ _ (by rw [depletionColumn_length])]
    exact depletionColumn_eq_claimed _ hs
  · intro pid
    exact sorted_group_dates _ hs pid

/-! ### Latest-snapshot selection (price benchmarking) -/

/-- idxmax over date_scraped within one group: the first row attaining the
maximum date (pandas idxmax keeps the first occurrence of the maximum). -/
def argmaxDate : List Row → Option Row
  | [] => none
  | r :: rs =>
    match argmaxDate rs with
    | none => some r
    | some b => if r.date_scraped < b.date_scraped then some b else some r

/-- The distinct product_id keys of the table, in order of first appearance
(ascending, since the table this is applied to is sorted on product_id). -/
def uniquePids (s : List Row) : List Nat :=
  (s.map (fun r => r.product_id)).dedup

/-- The rows of one product group. -/
def groupRows (s : List Row) (pid : Nat) : List Row :=
  s.filter (fun r => decide (r.product_id = pid))

/-- loc over groupby idxmax of date_scraped: one latest row per product. -/
def latestDf (s : List Row) : List Row :=
  (uniquePids s).filterMap (fun pid => argmaxDate (groupRows s pid))

/-- The latest-snapshot table the price-benchmarking tab derives. -/
def latestRows (rows : List Row) (ft : Nat) : List Row :=
  latestDf (sortedFiltered rows ft)

/-! ### Price gap metric -/

/-- The material is exactly the string titanium. -/
def titaniumName : List Char := ['t', 'i', 't', 'a', 'n', 'i', 'u', 'm']

/-- The pattern the str.contains check looks for. -/
def steelName : List Char := ['s', 't', 'e', 'e', 'l']

/-- Whether the second list starts with the first one. -/
def beginsWith : List Char → List Char → Bool
  | [], _ => true
  | _ :: _, [] => false
  | a :: as, b :: bs => a == b && beginsWith as bs

/-- Whether the needle occurs contiguously inside the haystack. -/
def containsChars (needle : List Char) : List Char → Bool
  | [] => needle.isEmpty
  | c :: cs => beginsWith needle (c :: cs) || containsChars needle cs

/-- str.contains steel with case=False: case-insensitive substring match. -/
def isSteelB (m : List Char) : Bool :=
  containsChars steelName (m.map Char.toLower)

/-- Median of a pandas numeric series: sort, take the middle element for odd
length and the average of the two middle elements for even length; an empty
series yields NaN, modelled as none. -/
def medianSorted (s : List ℚ) : Option ℚ :=
  if s.length = 0 then none
  else if s.length % 2 = 1 then s[s.length / 2]?
  else (s[s.length / 2 - 1]?).bind (fun a =>
    (s[s.length / 2]?).map (fun b => (a + b) / 2))

def medianOpt (xs : List ℚ) : Option ℚ :=
  medianSorted (List.insertionSort (fun a b : ℚ => a ≤ b) xs)

/-- The price series of the titanium group of the latest-row table. -/
def titaniumPrices (latest : List Row) : List ℚ :=
  (latest.filter (fun r => decide (r.material = titaniumName))).map
    (fun r => r.price_per_unit)

/-- The price series of the steel-family group of the latest-row table. -/
def steelPrices (latest : List Row) : List ℚ :=
  (latest.filter (fun r => isSteelB r.material)).map
    (fun r => r.price_per_unit)

/-- The rendered price-gap metric: both medians, their difference and their
ratio.  The metric is reported only when both medians exist (pd.notna on
both); otherwise the dashboard shows the could-not-calculate warning. -/
structure PriceGapMetric where
  titanium_median : ℚ
  steel_median : ℚ
  gap : ℚ
  ratio : ℚ
deriving DecidableEq

def priceGap (latest : List Row) : Option PriceGapMetric :=
  (medianOpt (titaniumPrices latest)).bind (fun t =>
    (medianOpt (steelPrices latest)).map (fun sp =>
      ⟨t, sp, t - sp, t / sp⟩))

/-- The whole metric pipeline from the merged table and the filter choice. -/
def priceGapOfRows (rows : List Row) (ft : Nat) : Option PriceGapMetric :=
  priceGap (latestRows rows ft)

/-! ### Market opportunity matrix (steel summary) -/

structure SteelSummaryRow where
  product_id : Nat
  avg_price : ℚ
  total_depletion : ℚ
  days_tracked : Nat
  avg_daily_depletion : ℚ
deriving DecidableEq

/-- Mean of a numeric series. -/
def meanQ (xs : List ℚ) : ℚ := xs.sum / (xs.length : ℚ)

/-- The steel-family restriction of the depleted table. -/
def steelPairs (pairs : List (Row × ℚ)) : List (Row × ℚ) :=
  pairs.filter (fun x => isSteelB x.1.material)

/-- The rows (with their depletion rates) of one steel product. -/
def pairGroup (steel : List (Row × ℚ)) (pid : Nat) : List (Row × ℚ) :=
  steel.filter (fun x => decide (x.1.product_id = pid))

/-- The aggregation row of one steel product: mean price, summed depletion,
distinct observation dates, and mean daily depletion guarded against a zero
day count. -/
def summaryFor (steel : List (Row × ℚ)) (pid : Nat) : SteelSummaryRow :=
  let g := pairGroup steel pid
  let tot := (g.map Prod.snd).sum
  let days := ((g.map (fun x => x.1.date_scraped)).dedup).length
  ⟨pid, meanQ (g.map (fun x => x.1.price_per_unit)), tot, days,
    if 0 < days then tot / (days : ℚ) else 0⟩

/-- groupby product_id + agg of the steel restriction of the depleted table. -/
def steelSummary (pairs : List (Row × ℚ)) : List SteelSummaryRow :=
  (uniquePids ((steelPairs pairs).map Prod.fst)).map
    (summaryFor (steelPairs pairs))

/-! ### Lemmas about latest-snapshot selection -/

theorem argmaxDate_eq_none_iff (g : List Row) :
    argmaxDate g = none ↔ g = [] := by
  cases g with
  | nil => simp [argmaxDate]
  | cons r rs =>
    simp only [argmaxDate]
    cases argmaxDate rs with
    | none => simp
    | some b => by_cases h : r.date_scraped < b.date_scraped <;> simp [h]

theorem argmaxDate_mem {g : List Row} {r : Row}
    (h : argmaxDate g = some r) : r ∈ g := by
  induction g with
  | nil => simp [argmaxDate] at h
  | cons a as ih =>
    simp only [argmaxDate] at h
    cases hm : argmaxDate as with
    | none =>
      rw [hm] at h
      simp only [Option.some.injEq] at h
      subst h
      exact List.mem_cons_self a as
    | some b =>
      rw [hm] at h
      dsimp only at h
      by_cases hd : a.date_scraped < b.date_scraped
      · rw [if_pos hd] at h
        simp only [Option.some.injEq] at h
        subst h
        exact List.mem_cons_of_mem a (ih hm)
      · rw [if_neg hd] at h
        simp only [Option.some.injEq] at h
        subst h
        exact List.mem_cons_self a as

theorem argmaxDate_max {g : List Row} {r : Row}
    (h : argmaxDate g = some r) :
    ∀ q ∈ g, q.date_scraped ≤ r.date_scraped := by
  induction g generalizing r with
  | nil => simp [argmaxDate] at h
  | cons a as ih =>
    simp only [argmaxDate] at h
    intro q hq
    cases hm : argmaxDate as with
    | none =>
      rw [hm] at h
      have has : as = [] := (argmaxDate_eq_none_iff as).mp hm
      simp only [Option.some.injEq] at h
      subst h
      subst has
      simp only [List.mem_singleton] at hq
      subst hq
      exact le_refl _
    | some b =>
      rw [hm] at h
      dsimp only at h
      rcases List.mem_cons.mp hq with hqa | hqas
      · subst hqa
        by_cases hd : q.date_scraped < b.date_scraped
        · rw [if_pos hd] at h
          simp only [Option.some.injEq] at h
          subst h
          exact le_of_lt hd
        · rw [if_neg hd] at h
          simp only [Option.some.injEq] at h
          subst h
          exact le_refl _
      · have hqb : q.date_scraped ≤ b.date_scraped := ih hm q hqas
        by_cases hd : a.date_scraped < b.date_scraped
        · rw [if_pos hd] at h
          simp only [Option.some.injEq] at h
          subst h
          exact hqb
        · rw [if_neg hd] at h
          simp only [Option.some.injEq] at h
          subst h
          omega

theorem groupRows_pid {s : List Row} {pid : Nat} {r : Row}
    (h : r ∈ groupRows s pid) : r.product_id = pid := by
  have := (List.mem_filter.mp h).2
  simpa using this

theorem groupRows_ne_nil {s : List Row} {pid : Nat}
    (h : pid ∈ s.map (fun r => r.product_id)) : groupRows s pid ≠ [] := by
  obtain ⟨r, hr, hrp⟩ := List.mem_map.mp h
  intro hnil
  have hmem : r ∈ groupRows s pid := by
    rw [groupRows, List.mem_filter]
    exact ⟨hr, by simpa using hrp⟩
  rw [hnil] at hmem
  simp at hmem

theorem filterMap_argmax_pids (s : List Row) (l : List Nat)
    (hl : ∀ pid ∈ l, pid ∈ s.map (fun r => r.product_id)) :
    (l.filterMap (fun pid => argmaxDate (groupRows s pid))).map
      (fun r => r.product_id) = l := by
  induction l with
  | nil => simp
  | cons p ps ih =>
    have hp := hl p (List.mem_cons_self p ps)
    have hg : groupRows s p ≠ [] := groupRows_ne_nil hp
    obtain ⟨r, hr⟩ : ∃ r, argmaxDate (groupRows s p) = some r := by
      cases hm : argmaxDate (groupRows s p) with
      | none => exact absurd ((argmaxDate_eq_none_iff _).mp hm) hg
      | some r => exact ⟨r, rfl⟩
    rw [List.filterMap_cons, hr, List.map_cons]
    rw [ih (fun q hq => hl q (List.mem_cons_of_mem p hq))]
    rw [groupRows_pid (argmaxDate_mem hr)]

/-- C3: latest-snapshot selection returns exactly one row per distinct
product_id present in the filtered set, each being a row of the set with the
maximum date_scraped of its product (ties broken so one row survives). -/
theorem c3_latest_snapshot (rows : List Row) (ft : Nat) :
    (latestRows rows ft).map (fun r => r.product_id)
        = uniquePids (sortedFiltered rows ft)
    ∧ ((latestRows rows ft).map (fun r => r.product_id)).Nodup
    ∧ (∀ pid, pid ∈ (latestRows rows ft).map (fun r => r.product_id) ↔
        pid ∈ (sortedFiltered rows ft).map (fun r => r.product_id))
    ∧ ∀ r ∈ latestRows rows ft, r ∈ sortedFiltered rows ft ∧
        ∀ q ∈ sortedFiltered rows ft, q.product_id = r.product_id →
          q.date_scraped ≤ r.date_scraped := by
  have hmap : (latestRows rows ft).map (fun r => r.product_id)
      = uniquePids (sortedFiltered rows ft) := by
    rw [latestRows, latestDf]
    exact filterMap_argmax_pids _ _
      (fun pid hpid => (List.mem_dedup).mp hpid)
  refine ⟨hmap, ?_, ?_, ?_⟩
  · rw [hmap]
    exact List.nodup_dedup _
  · intro pid
    rw [hmap, uniquePids]
    exact List.mem_dedup
  · intro r hr
    rw [latestRows, latestDf] at hr
    obtain ⟨pid, _hpid, hsome⟩ := List.mem_filterMap.mp hr
    have hmem : r ∈ groupRows (sortedFiltered rows ft) pid := argmaxDate_mem hsome
    have hrs : r ∈ sortedFiltered rows ft := List.mem_of_mem_filter hmem
    refine ⟨hrs, ?_⟩
    intro q hq hqr
    have hrp : r.product_id = pid := groupRows_pid hmem
    have hqg : q ∈ groupRows (sortedFiltered rows ft) pid := by
      rw [groupRows, List.mem_filter]
      refine ⟨hq, by simp [hqr, hrp]⟩
    exact argmaxDate_max hsome q hqg

/-! ### Lemmas about the price gap metric -/

theorem medianSorted_ne_none {s : List ℚ} (h : s.length ≠ 0) :
    medianSorted s ≠ none := by
  unfold medianSorted
  rw [if_neg h]
  by_cases hodd : s.length % 2 = 1
  · rw [if_pos hodd]
    have hlt : s.length / 2 < s.length :=
      Nat.div_lt_self (Nat.pos_of_ne_zero h) one_lt_two
    rw [List.getElem?_eq_getElem hlt]
    simp
  · rw [if_neg hodd]
    have ha : s.length / 2 - 1 < s.length := by omega
    have hb : s.length / 2 < s.length := by omega
    rw [List.getElem?_eq_getElem ha, List.getElem?_eq_getElem hb]
    simp

theorem medianOpt_eq_none_iff (xs : List ℚ) : medianOpt xs = none ↔ xs = [] := by
  constructor
  · intro h
    by_contra hx
    have hlen : (List.insertionSort (fun a b : ℚ => a ≤ b) xs).length = xs.length :=
      (List.perm_insertionSort _ xs).length_eq
    have hne : xs.length ≠ 0 := fun h0 => hx (List.length_eq_zero.mp h0)
    exact medianSorted_ne_none (by rw [hlen]; exact hne) h
  · intro h
    subst h
    rfl

/-- C2: the price-gap metric is reported iff both the titanium latest-row
group and the steel latest-row group are non-empty; when reported, its four
components are the two group medians, their difference, and their ratio;
when either group is empty nothing is computed (the metric is none). -/
theorem c2_price_gap (rows : List Row) (ft : Nat) :
    ((priceGapOfRows rows ft).isSome ↔
      ((latestRows rows ft).filter
          (fun r => decide (r.material = titaniumName)) ≠ []
        ∧ (latestRows rows ft).filter (fun r => isSteelB r.material) ≠ []))
    ∧ (∀ m, priceGapOfRows rows ft = some m →
        medianOpt (titaniumPrices (latestRows rows ft)) = some m.titanium_median
        ∧ medianOpt (steelPrices (latestRows rows ft)) = some m.steel_median
        ∧ m.gap = m.titanium_median - m.steel_median
        ∧ m.ratio = m.titanium_median / m.steel_median) := by
  have htp : titaniumPrices (latestRows rows ft) = [] ↔
      (latestRows rows ft).filter
        (fun r => decide (r.material = titaniumName)) = [] := by
    rw [titaniumPrices]
    exact List.map_eq_nil_iff
  have hsp : steelPrices (latestRows rows ft) = [] ↔
      (latestRows rows ft).filter (fun r => isSteelB r.material) = [] := by
    rw [steelPrices]
    exact List.map_eq_nil_iff
  unfold priceGapOfRows priceGap
  cases ht : medianOpt (titaniumPrices (latestRows rows ft)) with
  | none =>
    have hemp := (medianOpt_eq_none_iff _).mp ht
    constructor
    · simp only [Option.none_bind, Option.isSome_none]
      constructor
      · intro hfalse
        simp at hfalse
      · intro hne
        exact absurd (htp.mp hemp) hne.1
    · intro m hm
      simp at hm
  | some t =>
    have htne : titaniumPrices (latestRows rows ft) ≠ [] := by
      intro hnil
      rw [(medianOpt_eq_none_iff _).mpr hnil] at ht
      exact Option.noConfusion ht
    cases hst : medianOpt (steelPrices (latestRows rows ft)) with
    | none =>
      have hemp := (medianOpt_eq_none_iff _).mp hst
      constructor
      · simp only [Option.some_bind, hst, Option.map_none', Option.isSome_none]
        constructor
        · intro hfalse
          simp at hfalse
        · intro hne
          exact absurd (hsp.mp hemp) hne.2
      · intro m hm
        simp [hst] at hm
    | some sp =>
      have hsne : steelPrices (latestRows rows ft) ≠ [] := by
        intro hnil
        rw [(medianOpt_eq_none_iff _).mpr hnil] at hst
        exact Option.noConfusion hst
      constructor
      · simp only [Option.some_bind, hst, Option.map_some', Option.isSome_some]
        constructor
        · intro _
          exact ⟨fun hnil => htne (htp.mpr hnil), fun hnil => hsne (hsp.mpr hnil)⟩
        · intro _
          trivial
      · intro m hm
        simp only [Option.some_bind, hst, Option.map_some', Option.some.injEq] at hm
        subst hm
        exact ⟨rfl, rfl, rfl, rfl⟩

/-! ### Lemmas about the opportunity matrix -/

/-- C4: the per-product steel summary has one row per distinct steel
product; its fields are the mean price over all that product's rows, the
sum (not mean) of the per-row depletion rates, the count of distinct
observation dates, and a mean daily depletion equal to total over distinct
date count, defined as 0 when that count is 0. -/
theorem c4_steel_summary (rows : List Row) (ft : Nat) :
    (steelSummary (pipeline rows ft)).map (fun x => x.product_id)
        = uniquePids ((steelPairs (pipeline rows ft)).map Prod.fst)
    ∧ ∀ srow ∈ steelSummary (pipeline rows ft),
        srow.avg_price = meanQ ((pairGroup (steelPairs (pipeline rows ft))
            srow.product_id).map (fun x => x.1.price_per_unit))
        ∧ srow.total_depletion = ((pairGroup (steelPairs (pipeline rows ft))
            srow.product_id).map Prod.snd).sum
        ∧ srow.days_tracked = ((pairGroup (steelPairs (pipeline rows ft))
            srow.product_id).map (fun x => x.1.date_scraped)).dedup.length
        ∧ srow.avg_daily_depletion = (if 0 < srow.days_tracked
            then srow.total_depletion / (srow.days_tracked : ℚ) else 0)
        ∧ (srow.days_tracked = 0 → srow.avg_daily_depletion = 0) := by
  constructor
  · rw [steelSummary, List.map_map]
    have hcomp : ((fun x : SteelSummaryRow => x.product_id) ∘
        summaryFor (steelPairs (pipeline rows ft))) = fun pid => pid := by
      funext pid
      rfl
    rw [hcomp, List.map_id']
  · intro srow hsrow
    rw [steelSummary] at hsrow
    obtain ⟨pid, _hpid, heq⟩ := List.mem_map.mp hsrow
    subst heq
    refine ⟨rfl, rfl, rfl, rfl, ?_⟩
    intro hz
    show (if 0 < ((pairGroup (steelPairs (pipeline rows ft)) pid).map
        (fun x => x.1.date_scraped)).dedup.length then _ else 0) = 0
    rw [if_neg]
    intro hpos
    rw [show ((pairGroup (steelPairs (pipeline rows ft)) pid).map
        (fun x => x.1.date_scraped)).dedup.length =
        (summaryFor (steelPairs (pipeline rows ft)) pid).days_tracked from rfl,
      hz] at hpos
    exact Nat.lt_irrefl 0 hpos

/-! ### Order dependence of the price-gap metric -/

/-- The data-model expectation of one snapshot per product per date (the
source does not enforce it). -/
def OneSnapshotPerDate (rows : List Row) : Prop :=
  ∀ a ∈ rows, ∀ b ∈ rows, a.product_id = b.product_id →
    a.date_scraped = b.date_scraped → a = b

instance (rows : List Row) : Decidable (OneSnapshotPerDate rows) := by
  unfold OneSnapshotPerDate
  exact inferInstance

/-- Two titanium snapshots of one product sharing the maximum date but with
different prices, plus one steel row so the metric is defined. -/
def cexTi1 : Row := ⟨0, 0, 1, 0, titaniumName, 0⟩

def cexTi2 : Row := ⟨0, 0, 3, 0, titaniumName, 0⟩

def cexSt : Row := ⟨1, 0, 1, 0, steelName, 0⟩

theorem medianOpt_congr_perm {xs ys : List ℚ} (h : List.Perm xs ys) :
    medianOpt xs = medianOpt ys := by
  rw [medianOpt, medianOpt,
    List.eq_of_perm_of_sorted
      (((List.perm_insertionSort _ xs).trans h).trans
        (List.perm_insertionSort _ ys).symm)
      (List.sorted_insertionSort _ xs) (List.sorted_insertionSort _ ys)]

theorem priceGap_congr_perm {l1 l2 : List Row} (h : List.Perm l1 l2) :
    priceGap l1 = priceGap l2 := by
  have ht : medianOpt (titaniumPrices l1) = medianOpt (titaniumPrices l2) :=
    medianOpt_congr_perm (List.Perm.map _ (List.Perm.filter _ h))
  have hst : medianOpt (steelPrices l1) = medianOpt (steelPrices l2) :=
    medianOpt_congr_perm (List.Perm.map _ (List.Perm.filter _ h))
  rw [priceGap, priceGap, ht, hst]

/-- When every pair of same-product same-date rows is equal, the maximum-date
row of a product group is unique, so idxmax does not depend on row order. -/
theorem argmaxDate_eq_of_perm {g1 g2 : List Row}
    (hperm : List.Perm g1 g2)
    (huniq : ∀ a ∈ g1, ∀ b ∈ g1, a.product_id = b.product_id →
      a.date_scraped = b.date_scraped → a = b)
    (hpid : ∀ a ∈ g1, ∀ b ∈ g1, a.product_id = b.product_id) :
    argmaxDate g1 = argmaxDate g2 := by
  cases hg1 : argmaxDate g1 with
  | none =>
    have h1 : g1 = [] := (argmaxDate_eq_none_iff g1).mp hg1
    subst h1
    have h2 : g2 = [] := List.Perm.eq_nil hperm.symm
    subst h2
    rfl
  | some r1 =>
    cases hg2 : argmaxDate g2 with
    | none =>
      have h2 : g2 = [] := (argmaxDate_eq_none_iff g2).mp hg2
      subst h2
      have h1 : g1 = [] := List.Perm.eq_nil hperm
      subst h1
      simp [argmaxDate] at hg1
    | some r2 =>
      congr 1
      have hr1 : r1 ∈ g1 := argmaxDate_mem hg1
      have hr2 : r2 ∈ g1 := hperm.mem_iff.mpr (argmaxDate_mem hg2)
      have hd1 : r1.date_scraped ≤ r2.date_scraped :=
        argmaxDate_max hg2 r1 (hperm.mem_iff.mp hr1)
      have hd2 : r2.date_scraped ≤ r1.date_scraped :=
        argmaxDate_max hg1 r2 hr2
      exact huniq r1 hr1 r2 hr2 (hpid r1 hr1 r2 hr2) (le_antisymm hd1 hd2)

theorem uniquePids_perm {s1 s2 : List Row} (h : List.Perm s1 s2) :
    List.Perm (uniquePids s1) (uniquePids s2) := by
  unfold uniquePids
  rw [List.perm_ext_iff_of_nodup (List.nodup_dedup _) (List.nodup_dedup _)]
  intro pid
  rw [List.mem_dedup, List.mem_dedup]
  exact (List.Perm.map _ h).mem_iff

theorem latestDf_perm {s1 s2 : List Row} (h : List.Perm s1 s2)
    (huniq : ∀ a ∈ s1, ∀ b ∈ s1, a.product_id = b.product_id →
      a.date_scraped = b.date_scraped → a = b) :
    List.Perm (latestDf s1) (latestDf s2) := by
  have hfun : ∀ pid,
      argmaxDate (groupRows s1 pid) = argmaxDate (groupRows s2 pid) := by
    intro pid
    apply argmaxDate_eq_of_perm
    · unfold groupRows
      exact List.Perm.filter _ h
    · intro a ha b hb
      exact huniq a (List.mem_of_mem_filter ha) b (List.mem_of_mem_filter hb)
    · intro a ha b hb
      rw [groupRows_pid ha, groupRows_pid hb]
  rw [latestDf, latestDf]
  have hcong : (uniquePids s1).filterMap
        (fun pid => argmaxDate (groupRows s1 pid))
      = (uniquePids s1).filterMap
        (fun pid => argmaxDate (groupRows s2 pid)) := by
    simp only [hfun]
  rw [hcong]
  exact List.Perm.filterMap _ (uniquePids_perm h)

/-- C5 counterexample: with two same-product titanium rows sharing the
maximum date but carrying different prices, permuting the input changes
which row survives latest-snapshot selection, so the reported metric
changes; the claim fails as stated. -/
theorem c5_counterexample :
    List.Perm [cexTi1, cexTi2, cexSt] [cexTi2, cexTi1, cexSt]
    ∧ priceGapOfRows [cexTi1, cexTi2, cexSt] 0
      ≠ priceGapOfRows [cexTi2, cexTi1, cexSt] 0 := by
  constructor
  · decide
  · decide

/-- C5 (amended): the price-gap metric is invariant under permutation of the
input rows provided no product has two rows with the same date_scraped (in
particular provided the maximum date of each product is attained by exactly
one row); with duplicate max-date rows the metric may depend on row order. -/
theorem c5_price_gap_perm (rows1 rows2 : List Row) (ft : Nat)
    (hperm : List.Perm rows1 rows2) (huniq : OneSnapshotPerDate rows1) :
    priceGapOfRows rows1 ft = priceGapOfRows rows2 ft := by
  rw [priceGapOfRows, priceGapOfRows]
  apply priceGap_congr_perm
  rw [latestRows, latestRows]
  apply latestDf_perm
  · unfold sortedFiltered sortRows filterType
    exact ((List.perm_insertionSort _ _).trans
      ((List.Perm.filter _ hperm).trans (List.perm_insertionSort _ _).symm))
  · intro a ha b hb
    have ha1 : a ∈ rows1 := by
      rw [sortedFiltered, sortRows] at ha
      exact List.mem_of_mem_filter ((List.mem_insertionSort rowLE).mp ha)
    have hb1 : b ∈ rows1 := by
      rw [sortedFiltered, sortRows] at hb
      exact List.mem_of_mem_filter ((List.mem_insertionSort rowLE).mp hb)
    exact huniq a ha1 b hb1

/-! ### The snapshot generator

The generator's randomness (randint depletion, 5% restock event, uniform
price perturbation) is modelled by an explicit list of draws, one per seed
product; dates are day numbers; csv floats are exact rationals. -/

/-- One seed entry of SIMULATED_PRODUCTS. -/
structure SeedProduct where
  sku : String
  fastener_type : String
  material : String
  grade_or_alloy : String
  diameter_mm : ℚ
  length_mm : ℚ
  price_per_unit : ℚ
  inventory : Int
  manufacturer : String
deriving DecidableEq

def SITE_NAME : String := "mcmaster_clone"

/-- The manufacturer name of the hex bolt seed. -/
def boltsRUsName : String :=
  String.mk ['B', 'o', 'l', 't', 's', Char.ofNat 39, 'R', Char.ofNat 39,
    'U', 's']

def SIMULATED_PRODUCTS : List SeedProduct :=
  [⟨"91251A541", "machine screw", "stainless steel 316", "18-8", 5, 20,
      55 / 100, 1500, "Generic Steel Co."⟩,
    ⟨"91251A542", "machine screw", "alloy steel", "Grade 8", 5, 20,
      45 / 100, 2500, "Generic Steel Co."⟩,
    ⟨"T91251A541", "machine screw", "titanium", "Ti-6Al-4V", 5, 20,
      125 / 100, 400, "Premium Ti Supply"⟩,
    ⟨"HWB200", "hex bolt", "alloy steel", "Grade 5", 10, 50,
      110 / 100, 800, boltsRUsName⟩,
    ⟨"HWB201_TI", "hex bolt", "titanium", "Grade 2", 10, 50,
      350 / 100, 200, "Premium Ti Supply"⟩]

structure ProductRec where
  product_id : String
  site : String
  sku : String
  fastener_type : String
  material : String
  grade_or_alloy : String
  diameter_mm : ℚ
  length_mm : ℚ
  manufacturer : String
  first_seen_date : Int
  last_seen_date : Int
deriving DecidableEq

structure Snapshot where
  snapshot_id : Int
  product_id : String
  date_scraped : Int
  price_per_unit : ℚ
  inventory_level : Int
deriving DecidableEq

/-- The persisted table pair the generator reads and rewrites. -/
structure GenState where
  products : List ProductRec
  snapshots : List Snapshot
deriving DecidableEq

/-- The random choices one loop iteration consumes: the randint depletion
draw, whether the 5% restock event fires, and the uniform price change. -/
structure Draw where
  depletion : Int
  restock : Bool
  priceChange : ℚ
deriving DecidableEq

/-- Maximum of the date_scraped column (used on non-empty tables only). -/
def maxDate (snapshots : List Snapshot) : Int :=
  match snapshots.map (fun s => s.date_scraped) with
  | [] => 0
  | d :: ds => ds.foldl max d

/-- Date for the current run: the wall-clock date when no snapshots exist,
else one day after the maximum recorded date. -/
def get_current_date (wallclock : Int) (snapshots : List Snapshot) : Int :=
  if snapshots = [] then wallclock else maxDate snapshots + 1

def mkProductId (sku : String) : String := SITE_NAME ++ "_" ++ sku

/-- Lower randint bound: int(inventory * 0.01); for non-negative inventory
the int() truncation is the floor. -/
def depletionLo (L : Int) : Int := ⌊(L : ℚ) * (1 / 100)⌋

/-- Upper randint bound: int(inventory * 0.05). -/
def depletionHi (L : Int) : Int := ⌊(L : ℚ) * (5 / 100)⌋

/-- A depletion/restock/price triple the random number generator can
actually produce for the given current inventory level. -/
def ValidDraw (L : Int) (d : Draw) : Prop :=
  depletionLo L ≤ d.depletion ∧ d.depletion ≤ depletionHi L
    ∧ -(3 / 100) ≤ d.priceChange ∧ d.priceChange ≤ 3 / 100

/-- round(x, 2). -/
def round2 (q : ℚ) : ℚ := (round (q * 100) : ℚ) / 100

/-- One scraped record: the seed fields with the simulated dynamic data. -/
structure ScrapedItem where
  sku : String
  fastener_type : String
  material : String
  grade_or_alloy : String
  diameter_mm : ℚ
  length_mm : ℚ
  price_per_unit : ℚ
  inventory : Int
  manufacturer : String
  date_scraped : Int
deriving DecidableEq

/-- The body of the simulation loop for one seed product. -/
def simulate_one (snapshots : List Snapshot) (today : Int)
    (seed : SeedProduct) (d : Draw) : ScrapedItem :=
  let pid := mkProductId seed.sku
  let lastSnap := (snapshots.filter
    (fun s => decide (s.product_id = pid))).getLast?
  let lastInventory := match lastSnap with
    | some s => s.inventory_level
    | none => seed.inventory
  let lastPrice := match lastSnap with
    | some s => s.price_per_unit
    | none => seed.price_per_unit
  let depleted := lastInventory - d.depletion
  let newInventory := if d.restock then depleted + seed.inventory else depleted
  let newPrice := round2 (lastPrice * (1 + d.priceChange))
  ⟨seed.sku, seed.fastener_type, seed.material, seed.grade_or_alloy,
    seed.diameter_mm, seed.length_mm, newPrice, max 0 newInventory,
    seed.manufacturer, today⟩

/-- The simulated scrape of the day, one item per seed product. -/
def simulate_daily_changes (snapshots : List Snapshot) (today : Int)
    (draws : List Draw) : List ScrapedItem :=
  (SIMULATED_PRODUCTS.zip draws).map
    (fun sd => simulate_one snapshots today sd.1 sd.2)

/-- A snapshot row before the snapshot_id column is assigned. -/
structure PreSnapshot where
  product_id : String
  date_scraped : Int
  price_per_unit : ℚ
  inventory_level : Int
deriving DecidableEq

/-- The products-table row created for a newly seen product. -/
def newProductRec (today : Int) (it : ScrapedItem) : ProductRec :=
  ⟨mkProductId it.sku, SITE_NAME, it.sku, it.fastener_type, it.material,
    it.grade_or_alloy, it.diameter_mm, it.length_mm, it.manufacturer,
    today, today⟩

/-- The loc assignment advancing last_seen_date of an existing product. -/
def updateLastSeen (today : Int) (pid : String)
    (ps : List ProductRec) : List ProductRec :=
  ps.map (fun p => if p.product_id = pid then
    { p with last_seen_date := today } else p)

/-- The snapshot dict appended for every scraped item. -/
def preSnapshotOf (it : ScrapedItem) : PreSnapshot :=
  ⟨mkProductId it.sku, it.date_scraped, it.price_per_unit, it.inventory⟩

/-- One iteration of the processing loop over (products table, pending new
products, pending new snapshots). -/
def processItem (today : Int)
    (acc : List ProductRec × List ProductRec × List PreSnapshot)
    (it : ScrapedItem) :
    List ProductRec × List ProductRec × List PreSnapshot :=
  let pid := mkProductId it.sku
  if (acc.1.map (fun p => p.product_id)).contains pid then
    (updateLastSeen today pid acc.1, acc.2.1, acc.2.2 ++ [preSnapshotOf it])
  else
    (acc.1, acc.2.1 ++ [newProductRec today it],
      acc.2.2 ++ [preSnapshotOf it])

/-- max() of the snapshot_id column when the table is non-empty, else -1. -/
def maxIdOr (snapshots : List Snapshot) : Int :=
  match snapshots.map (fun s => s.snapshot_id) with
  | [] => -1
  | i :: is => is.foldl max i

/-- range(last_id + 1, ...): attach the contiguous id range to new rows. -/
def assignIds (start : Int) : List PreSnapshot → List Snapshot
  | [] => []
  | s :: ss => ⟨start, s.product_id, s.date_scraped, s.price_per_unit,
      s.inventory_level⟩ :: assignIds (start + 1) ss

def runToday (wallclock : Int) (st : GenState) : Int :=
  get_current_date wallclock st.snapshots

def runScraped (wallclock : Int) (draws : List Draw)
    (st : GenState) : List ScrapedItem :=
  simulate_daily_changes st.snapshots (runToday wallclock st) draws

def runFolded (wallclock : Int) (draws : List Draw) (st : GenState) :
    List ProductRec × List ProductRec × List PreSnapshot :=
  (runScraped wallclock draws st).foldl
    (processItem (runToday wallclock st)) (st.products, [], [])

/-- One generator run: simulate the day, update/extend the products table,
and append the new snapshots with contiguous ids. -/
def main_run (wallclock : Int) (draws : List Draw) (st : GenState) :
    GenState :=
  ⟨(runFolded wallclock draws st).1 ++ (runFolded wallclock draws st).2.1,
    if (runFolded wallclock draws st).2.2 = [] then st.snapshots
    else st.snapshots ++ assignIds (maxIdOr st.snapshots + 1)
      (runFolded wallclock draws st).2.2⟩

/-- C6: the generator's run date is the current calendar date when the
snapshot table is empty, and otherwise exactly one day after the maximum
existing date_scraped, independently of the wall-clock date of the run. -/
theorem c6_run_date (wallclock : Int) (snapshots : List Snapshot) :
    (snapshots = [] → get_current_date wallclock snapshots = wallclock)
    ∧ (snapshots ≠ [] →
        get_current_date wallclock snapshots = maxDate snapshots + 1
        ∧ ∀ w2, get_current_date w2 snapshots
            = get_current_date wallclock snapshots) := by
  constructor
  · intro h
    simp [get_current_date, h]
  · intro h
    refine ⟨by simp [get_current_date, h], ?_⟩
    intro w2
    simp [get_current_date, h]

/-! ### Structure of one generator run -/

theorem processItems_pre (today : Int) (items : List ScrapedItem)
    (acc : List ProductRec × List ProductRec × List PreSnapshot) :
    (items.foldl (processItem today) acc).2.2
      = acc.2.2 ++ items.map preSnapshotOf := by
  induction items generalizing acc with
  | nil => simp
  | cons it its ih =>
    rw [List.foldl_cons, ih]
    unfold processItem
    by_cases h : (acc.1.map
        (fun p => p.product_id)).contains (mkProductId it.sku)
    · rw [if_pos h]
      simp
    · rw [if_neg h]
      simp

theorem processItems_products_length (today : Int) (items : List ScrapedItem)
    (acc : List ProductRec × List ProductRec × List PreSnapshot) :
    (items.foldl (processItem today) acc).1.length = acc.1.length := by
  induction items generalizing acc with
  | nil => rfl
  | cons it its ih =>
    rw [List.foldl_cons, ih]
    unfold processItem
    by_cases h : (acc.1.map
        (fun p => p.product_id)).contains (mkProductId it.sku)
    · rw [if_pos h]
      simp [updateLastSeen]
    · rw [if_neg h]

theorem processItems_empty_products (today : Int) (items : List ScrapedItem)
    (np : List ProductRec) (ns : List PreSnapshot) :
    items.foldl (processItem today) ([], np, ns)
      = ([], np ++ items.map (newProductRec today),
          ns ++ items.map preSnapshotOf) := by
  induction items generalizing np ns with
  | nil => simp
  | cons it its ih =>
    rw [List.foldl_cons]
    have hstep : processItem today ([], np, ns) it
        = ([], np ++ [newProductRec today it], ns ++ [preSnapshotOf it]) := by
      unfold processItem
      rw [if_neg (by simp)]
    rw [hstep, ih]
    simp

theorem assignIds_length (start : Int) (l : List PreSnapshot) :
    (assignIds start l).length = l.length := by
  induction l generalizing start with
  | nil => rfl
  | cons p ps ih =>
    rw [assignIds]
    simp [ih]

theorem assignIds_map_id (start : Int) (l : List PreSnapshot) :
    (assignIds start l).map (fun s => s.snapshot_id)
      = (List.range l.length).map (fun i => start + Int.ofNat i) := by
  induction l generalizing start with
  | nil => simp [assignIds]
  | cons p ps ih =>
    rw [assignIds, List.map_cons, ih, List.length_cons,
      List.range_succ_eq_map, List.map_cons, List.map_map]
    congr 1
    · simp
    · apply List.map_congr_left
      intro a ha
      simp only [Function.comp_apply, Nat.succ_eq_add_one,
        Int.ofNat_eq_coe]
      push_cast
      ring

theorem foldl_max_le_init (l : List Int) (x : Int) : x ≤ l.foldl max x := by
  induction l generalizing x with
  | nil => simp
  | cons a as ih =>
    rw [List.foldl_cons]
    exact le_trans (le_max_left x a) (ih (max x a))

theorem mem_le_foldl_max (l : List Int) (x y : Int) (h : y ∈ l) :
    y ≤ l.foldl max x := by
  induction l generalizing x with
  | nil => simp at h
  | cons a as ih =>
    rw [List.foldl_cons]
    rcases List.mem_cons.mp h with rfl | hmem
    · exact le_trans (le_max_right x y) (foldl_max_le_init as _)
    · exact ih (max x a) hmem

theorem snapshot_id_le_maxIdOr {snapshots : List Snapshot} {t : Snapshot}
    (h : t ∈ snapshots) : t.snapshot_id ≤ maxIdOr snapshots := by
  unfold maxIdOr
  have hmem : t.snapshot_id ∈ snapshots.map (fun s => s.snapshot_id) :=
    List.mem_map_of_mem _ h
  cases hm : snapshots.map (fun s => s.snapshot_id) with
  | nil =>
    rw [hm] at hmem
    simp at hmem
  | cons i is =>
    rw [hm] at hmem
    rcases List.mem_cons.mp hmem with heq | hmem2
    · rw [heq]
      exact foldl_max_le_init is i
    · exact mem_le_foldl_max is i _ hmem2

theorem assignIds_id_ge (start : Int) (l : List PreSnapshot) :
    ∀ s ∈ assignIds start l, start ≤ s.snapshot_id := by
  induction l generalizing start with
  | nil => simp [assignIds]
  | cons p ps ih =>
    intro s hs
    rw [assignIds] at hs
    rcases List.mem_cons.mp hs with rfl | hmem
    · simp
    · have := ih (start + 1) s hmem
      omega

theorem main_run_products (w : Int) (d : List Draw) (st : GenState) :
    (main_run w d st).products
      = (runFolded w d st).1 ++ (runFolded w d st).2.1 := rfl

theorem main_run_snapshots (w : Int) (d : List Draw) (st : GenState) :
    (main_run w d st).snapshots
      = if (runFolded w d st).2.2 = [] then st.snapshots
        else st.snapshots ++ assignIds (maxIdOr st.snapshots + 1)
          (runFolded w d st).2.2 := rfl

theorem main_run_products_length (w : Int) (d : List Draw) (st : GenState) :
    st.products.length ≤ (main_run w d st).products.length := by
  rw [main_run_products, List.length_append, runFolded,
    processItems_products_length]
  dsimp only
  omega

theorem main_run_snapshots_take (w : Int) (d : List Draw) (st : GenState) :
    (main_run w d st).snapshots.take st.snapshots.length = st.snapshots := by
  rw [main_run_snapshots]
  by_cases hnil : (runFolded w d st).2.2 = []
  · rw [if_pos hnil, List.take_length]
  · rw [if_neg hnil, List.take_left]

theorem main_run_snapshots_length (w : Int) (d : List Draw) (st : GenState) :
    st.snapshots.length ≤ (main_run w d st).snapshots.length := by
  rw [main_run_snapshots]
  by_cases hnil : (runFolded w d st).2.2 = []
  · rw [if_pos hnil]
  · rw [if_neg hnil, List.length_append]
    omega

theorem main_run_new_ids (w : Int) (d : List Draw) (st : GenState) :
    ∀ s ∈ (main_run w d st).snapshots.drop st.snapshots.length,
      ∀ t ∈ st.snapshots, t.snapshot_id < s.snapshot_id := by
  intro s hs t ht
  rw [main_run_snapshots] at hs
  by_cases hnil : (runFolded w d st).2.2 = []
  · rw [if_pos hnil, List.drop_length] at hs
    simp at hs
  · rw [if_neg hnil, List.drop_left] at hs
    have h1 := assignIds_id_ge (maxIdOr st.snapshots + 1) _ s hs
    have h2 := snapshot_id_le_maxIdOr ht
    omega

/-- C7: new snapshot ids of a run form the contiguous range starting at
the maximum existing id plus one (0 when the table is empty, since the
sentinel is -1), and a first run from empty tables yields one product and
one snapshot per seed with first_seen_date = last_seen_date = run date. -/
theorem c7_snapshot_ids (wallclock : Int) (draws : List Draw) (st : GenState)
    (hd : draws.length = SIMULATED_PRODUCTS.length) :
    ((main_run wallclock draws st).snapshots.drop st.snapshots.length).map
        (fun s => s.snapshot_id)
      = (List.range ((main_run wallclock draws st).snapshots.length
            - st.snapshots.length)).map
          (fun i => maxIdOr st.snapshots + 1 + Int.ofNat i)
    ∧ (st.snapshots = [] → maxIdOr st.snapshots + 1 = 0)
    ∧ (st.products = [] → st.snapshots = [] →
        (main_run wallclock draws st).products.length
          = SIMULATED_PRODUCTS.length
        ∧ (main_run wallclock draws st).snapshots.length
          = SIMULATED_PRODUCTS.length
        ∧ ∀ p ∈ (main_run wallclock draws st).products,
            p.first_seen_date = get_current_date wallclock st.snapshots
            ∧ p.last_seen_date = get_current_date wallclock st.snapshots) := by
  have hslen : (runScraped wallclock draws st).length
      = SIMULATED_PRODUCTS.length := by
    rw [runScraped, simulate_daily_changes, List.length_map,
      List.length_zip, hd]
    simp
  refine ⟨?_, ?_, ?_⟩
  · rw [main_run_snapshots]
    by_cases hnil : (runFolded wallclock draws st).2.2 = []
    · rw [if_pos hnil]
      simp
    · rw [if_neg hnil]
      have hlen : (st.snapshots ++ assignIds (maxIdOr st.snapshots + 1)
            (runFolded wallclock draws st).2.2).length
            - st.snapshots.length
          = (runFolded wallclock draws st).2.2.length := by
        rw [List.length_append, assignIds_length]
        omega
      rw [List.drop_left, hlen, assignIds_map_id]
  · intro h
    rw [h]
    rfl
  · intro hp hsnil
    have hfold : runFolded wallclock draws st
        = ([], (runScraped wallclock draws st).map
              (newProductRec (runToday wallclock st)),
            (runScraped wallclock draws st).map preSnapshotOf) := by
      rw [runFolded, hp, processItems_empty_products]
      simp
    have hne : (runFolded wallclock draws st).2.2 ≠ [] := by
      rw [hfold]
      intro hc
      simp only [List.map_eq_nil_iff] at hc
      rw [List.length_eq_zero.mpr hc] at hslen
      exact absurd hslen.symm (by decide)
    refine ⟨?_, ?_, ?_⟩
    · rw [main_run_products, hfold, List.nil_append, List.length_map, hslen]
    · rw [main_run_snapshots, if_neg hne, hsnil, List.nil_append,
        assignIds_length, hfold, List.length_map, hslen]
    · intro p hp2
      rw [main_run_products, hfold, List.nil_append] at hp2
      obtain ⟨it, _hit, heq⟩ := List.mem_map.mp hp2
      subst heq
      constructor
      · rfl
      · rfl

/-- C8: two successive runs never decrease the row count of either table,
leave every pre-existing snapshot row in place unchanged, and assign no new
snapshot an id already present before its run (append-only structure). -/
theorem c8_append_only (w1 w2 : Int) (d1 d2 : List Draw) (st : GenState) :
    st.products.length ≤ (main_run w1 d1 st).products.length
    ∧ (main_run w1 d1 st).products.length
        ≤ (main_run w2 d2 (main_run w1 d1 st)).products.length
    ∧ st.snapshots.length ≤ (main_run w1 d1 st).snapshots.length
    ∧ (main_run w1 d1 st).snapshots.length
        ≤ (main_run w2 d2 (main_run w1 d1 st)).snapshots.length
    ∧ (main_run w1 d1 st).snapshots.take st.snapshots.length = st.snapshots
    ∧ (main_run w2 d2 (main_run w1 d1 st)).snapshots.take
        (main_run w1 d1 st).snapshots.length = (main_run w1 d1 st).snapshots
    ∧ (∀ s ∈ (main_run w1 d1 st).snapshots.drop st.snapshots.length,
        ∀ t ∈ st.snapshots, s.snapshot_id ≠ t.snapshot_id)
    ∧ (∀ s ∈ (main_run w2 d2 (main_run w1 d1 st)).snapshots.drop
          (main_run w1 d1 st).snapshots.length,
        ∀ t ∈ (main_run w1 d1 st).snapshots, s.snapshot_id ≠ t.snapshot_id) := by
  refine ⟨main_run_products_length w1 d1 st,
    main_run_products_length w2 d2 _,
    main_run_snapshots_length w1 d1 st,
    main_run_snapshots_length w2 d2 _,
    main_run_snapshots_take w1 d1 st,
    main_run_snapshots_take w2 d2 _, ?_, ?_⟩
  · intro s hs t ht
    have := main_run_new_ids w1 d1 st s hs t ht
    omega
  · intro s hs t ht
    have := main_run_new_ids w2 d2 _ s hs t ht
    omega

/-! ### Depletion draw bounds and inventory non-negativity -/

theorem depletion_le_five_percent {L dep : Int} (hhi : dep ≤ depletionHi L) :
    (dep : ℚ) ≤ (L : ℚ) * (5 / 100) := by
  have h1 : ((dep : ℚ)) ≤ ((depletionHi L : Int) : ℚ) := by exact_mod_cast hhi
  exact le_trans h1 (Int.floor_le _)

theorem one_percent_sub_one_lt_depletion {L dep : Int}
    (hlo : depletionLo L ≤ dep) :
    (L : ℚ) * (1 / 100) - 1 < (dep : ℚ) := by
  have h2 : (L : ℚ) * (1 / 100) - 1 < ((depletionLo L : Int) : ℚ) :=
    Int.sub_one_lt_floor _
  have h3 : ((depletionLo L : Int) : ℚ) ≤ (dep : ℚ) := by exact_mod_cast hlo
  linarith

theorem depletionLo_le_depletionHi {L : Int} (hL : 0 ≤ L) :
    depletionLo L ≤ depletionHi L := by
  apply Int.floor_le_floor
  have hq : (0 : ℚ) ≤ (L : ℚ) := by exact_mod_cast hL
  nlinarith

/-- C9 counterexample: with inventory level 150 the generator can draw a
depletion of 1 (the truncated lower randint bound int(150 * 0.01) = 1), and
1 is strictly below one percent of 150, which is 1.5. -/
theorem c9_counterexample :
    depletionLo 150 ≤ 1 ∧ (1 : Int) ≤ depletionHi 150
    ∧ ¬ ((150 : ℚ) * (1 / 100) ≤ ((1 : Int) : ℚ)) := by
  refine ⟨?_, ?_, ?_⟩
  · show ⌊(((150 : Int) : ℚ)) * (1 / 100)⌋ ≤ 1
    have hlt : ⌊(((150 : Int) : ℚ)) * (1 / 100)⌋ < 2 :=
      Int.floor_lt.mpr (by norm_num)
    omega
  · show (1 : Int) ≤ ⌊(((150 : Int) : ℚ)) * (5 / 100)⌋
    have : (1 : ℚ) ≤ ((150 : Int) : ℚ) * (5 / 100) := by norm_num
    exact Int.le_floor.mpr (by exact_mod_cast this)
  · norm_num

/-- C9 (amended): for inventory L ≥ 0 every depletion the randint call can
return lies between ⌊0.01 L⌋ and ⌊0.05 L⌋ inclusive; hence it is at most
five percent of L and greater than one percent of L minus one, but — as the
counterexample shows — it can be strictly below one percent of L because
int() truncates the bounds. -/
theorem c9_depletion_bounds (L : Int) (d : Draw) (hL : 0 ≤ L)
    (hv : ValidDraw L d) :
    depletionLo L ≤ depletionHi L
    ∧ (d.depletion : ℚ) ≤ (L : ℚ) * (5 / 100)
    ∧ (L : ℚ) * (1 / 100) - 1 < (d.depletion : ℚ) := by
  obtain ⟨hlo, hhi, -, -⟩ := hv
  exact ⟨depletionLo_le_depletionHi hL, depletion_le_five_percent hhi,
    one_percent_sub_one_lt_depletion hlo⟩

theorem simulate_one_inv_nonneg (snapshots : List Snapshot) (today : Int)
    (seed : SeedProduct) (d : Draw) :
    0 ≤ (simulate_one snapshots today seed d).inventory := by
  unfold simulate_one
  dsimp only
  exact le_max_left 0 _

theorem assignIds_inv (start : Int) (l : List PreSnapshot) :
    ∀ s ∈ assignIds start l, ∃ p ∈ l,
      s.inventory_level = p.inventory_level := by
  induction l generalizing start with
  | nil => simp [assignIds]
  | cons p ps ih =>
    intro s hs
    rw [assignIds] at hs
    rcases List.mem_cons.mp hs with rfl | hmem
    · exact ⟨p, List.mem_cons_self p ps, rfl⟩
    · obtain ⟨q, hq, hq2⟩ := ih (start + 1) s hmem
      exact ⟨q, List.mem_cons_of_mem p hq, hq2⟩

/-- C10: for non-negative inventory L every possible depletion draw is at
most L, so the pre-restock inventory L - d is already non-negative, the
final clamp max 0 is the identity there, and every snapshot row a generator
run appends carries a non-negative inventory_level. -/
theorem c10_inventory_nonneg (L : Int) (d : Draw) (seedInv : Int)
    (hL : 0 ≤ L) (hv : ValidDraw L d) (hseed : 0 ≤ seedInv) :
    d.depletion ≤ L
    ∧ 0 ≤ L - d.depletion
    ∧ max 0 (if d.restock then L - d.depletion + seedInv
          else L - d.depletion)
        = (if d.restock then L - d.depletion + seedInv else L - d.depletion)
    ∧ ∀ w draws st, ∀ s ∈ (main_run w draws st).snapshots,
        s ∈ st.snapshots ∨ 0 ≤ s.inventory_level := by
  obtain ⟨hlo, hhi, -, -⟩ := hv
  have hdL : d.depletion ≤ L := by
    have h1 := depletion_le_five_percent hhi
    have h2 : ((L : ℚ)) * (5 / 100) ≤ (L : ℚ) := by
      have hq : (0 : ℚ) ≤ (L : ℚ) := by exact_mod_cast hL
      nlinarith
    exact_mod_cast le_trans h1 h2
  refine ⟨hdL, by omega, ?_, ?_⟩
  · apply max_eq_right
    split
    · omega
    · omega
  · intro w draws st s hs
    rw [main_run_snapshots] at hs
    by_cases hnil : (runFolded w draws st).2.2 = []
    · rw [if_pos hnil] at hs
      exact Or.inl hs
    · rw [if_neg hnil] at hs
      rcases List.mem_append.mp hs with h1 | h2
      · exact Or.inl h1
      · right
        obtain ⟨p, hp, heq⟩ := assignIds_inv _ _ s h2
        have hpre : (runFolded w draws st).2.2
            = (runScraped w draws st).map preSnapshotOf := by
          rw [runFolded, processItems_pre]
          simp
        rw [hpre] at hp
        obtain ⟨it, hit, heq2⟩ := List.mem_map.mp hp
        rw [heq, ← heq2]
        show 0 ≤ it.inventory
        rw [runScraped, simulate_daily_changes] at hit
        obtain ⟨sd, _hsd, heq3⟩ := List.mem_map.mp hit
        rw [← heq3]
        exact simulate_one_inv_nonneg _ _ _ _

/-! ### Concrete witnesses

Small concrete tables on which the theorems above are instantiated and
evaluated: one steel product tracked on two dates (inventory 50 then 48),
one titanium product, one pre-existing snapshot for the generator, and a
run's worth of zero draws. -/

def wSteelA : Row := ⟨5, 0, 2, 50, steelName, 0⟩

def wSteelB : Row := ⟨5, 3, 2, 48, steelName, 0⟩

def wTitanium : Row := ⟨6, 1, 4, 30, titaniumName, 0⟩

def wSnap : Snapshot := ⟨0, "p", 10, 1, 5⟩

def wDraws : List Draw :=
  [⟨0, false, 0⟩, ⟨0, false, 0⟩, ⟨0, false, 0⟩, ⟨0, false, 0⟩,
    ⟨0, false, 0⟩]

def stW : GenState := ⟨[], [wSnap]⟩

/-- The first snapshot appended by a run on stW with zero draws. -/
def wNewSnap : Snapshot := ⟨1, "mcmaster_clone_91251A541", 11, 55 / 100, 1500⟩

instance (L : Int) (d : Draw) : Decidable (ValidDraw L d) := by
  unfold ValidDraw
  exact inferInstance

/-- Witness for c2_price_gap at a concrete table with one titanium and one
steel latest row: both medians exist and the metric components follow. -/
theorem c2_witness :
    priceGapOfRows [wTitanium, wSteelA] 0 = some ⟨4, 2, 2, 2⟩
    ∧ (medianOpt (titaniumPrices (latestRows [wTitanium, wSteelA] 0))
        = some ((4 : ℚ))
      ∧ medianOpt (steelPrices (latestRows [wTitanium, wSteelA] 0))
        = some ((2 : ℚ))
      ∧ (2 : ℚ) = 4 - 2
      ∧ (2 : ℚ) = 4 / 2) :=
  ⟨by with_unfolding_all decide,
    (c2_price_gap [wTitanium, wSteelA] 0).2 ⟨4, 2, 2, 2⟩
      (by with_unfolding_all decide)⟩

/-- Witness for c3_latest_snapshot: on a product with snapshots at dates 0
and 3, the selected latest row dominates the other row of its product. -/
theorem c3_witness :
    wSteelB ∈ latestRows [wSteelA, wSteelB] 0
    ∧ wSteelB ∈ sortedFiltered [wSteelA, wSteelB] 0
    ∧ wSteelA.date_scraped ≤ wSteelB.date_scraped := by
  have h := (c3_latest_snapshot [wSteelA, wSteelB] 0).2.2.2 wSteelB
    (by with_unfolding_all decide)
  exact ⟨by with_unfolding_all decide, h.1,
    h.2 wSteelA (by with_unfolding_all decide) rfl⟩

/-- Witness for c4_steel_summary: the summary row of the steel product with
prices 2, 2 and depletions 0, 2 over two dates. -/
theorem c4_witness :
    (⟨5, 2, 2, 2, 1⟩ : SteelSummaryRow)
        ∈ steelSummary (pipeline [wSteelA, wSteelB] 0)
    ∧ ((2 : ℚ) = meanQ ((pairGroup (steelPairs (pipeline [wSteelA, wSteelB] 0))
          5).map (fun x => x.1.price_per_unit))
      ∧ (2 : ℚ) = ((pairGroup (steelPairs (pipeline [wSteelA, wSteelB] 0))
          5).map Prod.snd).sum
      ∧ (2 : Nat) = ((pairGroup (steelPairs (pipeline [wSteelA, wSteelB] 0))
          5).map (fun x => x.1.date_scraped)).dedup.length
      ∧ (1 : ℚ) = (if 0 < (2 : Nat) then (2 : ℚ) / ((2 : Nat) : ℚ) else 0)
      ∧ ((2 : Nat) = 0 → (1 : ℚ) = 0)) :=
  ⟨by with_unfolding_all decide,
    (c4_steel_summary [wSteelA, wSteelB] 0).2 ⟨5, 2, 2, 2, 1⟩
      (by with_unfolding_all decide)⟩

/-- Witness for c5_price_gap_perm: permuting a duplicate-free table leaves
the metric unchanged. -/
theorem c5_witness :
    List.Perm [wSteelA, wTitanium] [wTitanium, wSteelA]
    ∧ OneSnapshotPerDate [wSteelA, wTitanium]
    ∧ priceGapOfRows [wSteelA, wTitanium] 0
        = priceGapOfRows [wTitanium, wSteelA] 0 :=
  ⟨by decide, by decide,
    c5_price_gap_perm [wSteelA, wTitanium] [wTitanium, wSteelA] 0
      (by decide) (by decide)⟩

/-- Witness for c6_run_date on a single-snapshot table dated day 10. -/
theorem c6_witness :
    ([wSnap] ≠ ([] : List Snapshot))
    ∧ get_current_date 77 [wSnap] = maxDate [wSnap] + 1 := by
  have hne : [wSnap] ≠ ([] : List Snapshot) := by simp
  exact ⟨hne, ((c6_run_date 77 [wSnap]).2 hne).1⟩

/-- Witness for c7_snapshot_ids: a first run from empty tables creates five
products and five snapshots. -/
theorem c7_witness :
    wDraws.length = SIMULATED_PRODUCTS.length
    ∧ (main_run 7 wDraws ⟨[], []⟩).products.length
        = SIMULATED_PRODUCTS.length
    ∧ (main_run 7 wDraws ⟨[], []⟩).snapshots.length
        = SIMULATED_PRODUCTS.length := by
  have h := (c7_snapshot_ids 7 wDraws ⟨[], []⟩ (by decide)).2.2 rfl rfl
  exact ⟨by decide, h.1, h.2.1⟩

/-- Witness for c8_append_only: on a table holding snapshot id 0, the first
appended snapshot of a run carries a fresh id. -/
theorem c8_witness :
    wNewSnap ∈ (main_run 3 wDraws stW).snapshots.drop stW.snapshots.length
    ∧ wSnap ∈ stW.snapshots
    ∧ wNewSnap.snapshot_id ≠ wSnap.snapshot_id :=
  ⟨by with_unfolding_all decide, by decide,
    (c8_append_only 3 9 wDraws wDraws stW).2.2.2.2.2.2.1 wNewSnap
      (by with_unfolding_all decide) wSnap (by decide)⟩

/-- Witness for c9_depletion_bounds at inventory 150 and depletion draw 2. -/
theorem c9_witness :
    (0 : Int) ≤ 150 ∧ ValidDraw 150 ⟨2, false, 0⟩
    ∧ (depletionLo 150 ≤ depletionHi 150
      ∧ (((⟨2, false, 0⟩ : Draw).depletion : ℚ))
          ≤ (((150 : Int)) : ℚ) * (5 / 100)
      ∧ (((150 : Int)) : ℚ) * (1 / 100) - 1
          < (((⟨2, false, 0⟩ : Draw).depletion : ℚ))) :=
  ⟨by decide, by with_unfolding_all decide,
    c9_depletion_bounds 150 ⟨2, false, 0⟩ (by decide)
      (by with_unfolding_all decide)⟩

/-- Witness for c10_inventory_nonneg at inventory 150, depletion 2, restock
with seed 400. -/
theorem c10_witness :
    (0 : Int) ≤ 150 ∧ ValidDraw 150 ⟨2, true, 0⟩ ∧ (0 : Int) ≤ 400
    ∧ ((⟨2, true, 0⟩ : Draw).depletion ≤ 150
      ∧ (0 : Int) ≤ 150 - (⟨2, true, 0⟩ : Draw).depletion
      ∧ max 0 (if (⟨2, true, 0⟩ : Draw).restock then
            150 - (⟨2, true, 0⟩ : Draw).depletion + 400
          else 150 - (⟨2, true, 0⟩ : Draw).depletion)
        = (if (⟨2, true, 0⟩ : Draw).restock then
            150 - (⟨2, true, 0⟩ : Draw).depletion + 400
          else 150 - (⟨2, true, 0⟩ : Draw).depletion)) := by
  have h := c10_inventory_nonneg 150 ⟨2, true, 0⟩ 400 (by decide)
    (by with_unfolding_all decide) (by decide)
  exact ⟨by decide, by with_unfolding_all decide, by decide,
    h.1, h.2.1, h.2.2.1⟩

end TitaniumScraper
